import Mathlib

set_option linter.unusedVariables false

/-!
Verification development for the diagnostics record codec of the cantools
fork under review (`cantools/database/diagnostics/`): the `Data` field
descriptor (`data.py`), the `Did` record container (`did.py`) with its
`refresh` / `encode` / `decode` / `get_data_by_name` operations, and the
final database construction step of the CDD loader (`formats/cdd.py`,
`internal_database.py`).

The generic leaf-level codec helpers `encode_data`, `decode_data` and
`create_encode_decode_formats` live in `cantools/database/utils.py`, which
is not part of the sources under review; they are modelled from the
specification (sections 4.2-4.4) and marked as such in their doc comments.
Everything else is translated directly from the Python sources.

Conventions of the embedding:
 - Python byte strings are `List Nat` (each entry one byte value);
 - Python numbers are `Nat` / `Int` / `Rat` as appropriate (scale and
   offset, which are floats in the source, are modelled as rationals);
 - Python dictionaries that preserve insertion order are association
   lists `List (String × _)` with an update-or-append operation;
 - raising an exception is returning `Except.error` of a `PyError`
   constructor named after the Python exception class;
 - the in-place mutation done by `Did.refresh` is modelled functionally:
   `refresh` returns the updated record.
-/

/-- Byte order tag of a field (`'little_endian'` / `'big_endian'` in the
Python sources). -/
inductive ByteOrder where
  | little_endian
  | big_endian
deriving DecidableEq, Repr

/-- Kinds of Python exceptions raised by the modelled code, named after the
exception classes used in the sources.  `bufferError` carries the minimum
item count that the message of `did.py`'s `BufferError` reports. -/
inductive PyError where
  | keyError
  | valueError
  | typeError
  | zeroDivisionError
  | indexError
  | binasciiError
  | bufferError (min_items : Nat)
deriving DecidableEq, Repr

/-- Decoded Python values produced by `Did.decode`: numbers, choice label
strings, the `None` sentinel used for truncated repeating items, nested
decoded mappings, and lists of per-item results. -/
inductive Value where
  | num (q : Rat)
  | str (s : String)
  | null
  | dict (fields : List (String × Value))
  | seq (items : List Value)

/-- Values supplied to `Did.encode`: a physical number or a choice label. -/
inductive EncValue where
  | num (q : Rat)
  | str (s : String)

/-- The field descriptor of `data.py` (`class Data`).  Fields appear in the
order of `Data.__init__`; `is_float` and `is_signed` are the derived
attributes the constructor sets, `sub_elements` is the list of nested
descriptors, and `codec` is the `_codec` slot filled by `Did.refresh`: the
sub-element list together with the byte size passed to
`create_encode_decode_formats` (the compiled formats are a deterministic
function of these two, see `create_encode_decode_formats` below). -/
inductive Data : Type where
  | mk
    (name : String) (start : Nat) (length : Nat) (byte_order : ByteOrder)
    (scale : Rat) (offset : Rat)
    (minimum : Option Nat) (maximum : Option Nat)
    (min_num_of_items : Option Nat) (max_num_of_items : Option Nat)
    (unit : Option String) (choices : Option (List (Nat × String)))
    (encoding : String) (data_format : String) (qty : String)
    (is_float : Bool) (is_signed : Bool)
    (sub_elements : List Data)
    (codec : Option (List Data × Nat)) : Data

def Data.name : Data → String
  | .mk x .. => x

def Data.start : Data → Nat
  | .mk _ x .. => x

def Data.length : Data → Nat
  | .mk _ _ x .. => x

def Data.byte_order : Data → ByteOrder
  | .mk _ _ _ x .. => x

def Data.scale : Data → Rat
  | .mk _ _ _ _ x .. => x

def Data.offset : Data → Rat
  | .mk _ _ _ _ _ x .. => x

def Data.minimum : Data → Option Nat
  | .mk _ _ _ _ _ _ x .. => x

def Data.maximum : Data → Option Nat
  | .mk _ _ _ _ _ _ _ x .. => x

def Data.min_num_of_items : Data → Option Nat
  | .mk _ _ _ _ _ _ _ _ x .. => x

def Data.max_num_of_items : Data → Option Nat
  | .mk _ _ _ _ _ _ _ _ _ x .. => x

def Data.unit : Data → Option String
  | .mk _ _ _ _ _ _ _ _ _ _ x .. => x

def Data.choices : Data → Option (List (Nat × String))
  | .mk _ _ _ _ _ _ _ _ _ _ _ x .. => x

def Data.encoding : Data → String
  | .mk _ _ _ _ _ _ _ _ _ _ _ _ x .. => x

def Data.data_format : Data → String
  | .mk _ _ _ _ _ _ _ _ _ _ _ _ _ x .. => x

def Data.qty : Data → String
  | .mk _ _ _ _ _ _ _ _ _ _ _ _ _ _ x .. => x

def Data.is_float : Data → Bool
  | .mk _ _ _ _ _ _ _ _ _ _ _ _ _ _ _ x .. => x

def Data.is_signed : Data → Bool
  | .mk _ _ _ _ _ _ _ _ _ _ _ _ _ _ _ _ x .. => x

def Data.sub_elements : Data → List Data
  | .mk _ _ _ _ _ _ _ _ _ _ _ _ _ _ _ _ _ x _ => x

def Data.codec : Data → Option (List Data × Nat)
  | .mk _ _ _ _ _ _ _ _ _ _ _ _ _ _ _ _ _ _ x => x

/-- Replace the `_codec` slot of a descriptor (the assignment
`sub_data_obj._codec = ...` performed by `Did.refresh`). -/
def Data.withCodec : Data → Option (List Data × Nat) → Data
  | .mk n st le bo sc o mi ma mni mxi u ch e df q fl sg se _, c =>
    .mk n st le bo sc o mi ma mni mxi u ch e df q fl sg se c

/-- Replace the `sub_elements` attribute of a descriptor (the external
structural mutation `data.sub_elements = ...` that the spec's lifecycle
section allows between `refresh` calls). -/
def Data.withSubElements : Data → List Data → Data
  | .mk n st le bo sc o mi ma mni mxi u ch e df q fl sg _ c, se =>
    .mk n st le bo sc o mi ma mni mxi u ch e df q fl sg se c

/-- Python truthiness of an optional number (`None` and `0` are falsy). -/
def optTruthy : Option Nat → Bool
  | none => false
  | some n => n != 0

/-- `Data.__init__` of `data.py`: stores the attributes, deriving the bit
length as `maximum * 8` when `qty == 'field'` and `maximum` is truthy, and
the given `length` otherwise; sets `is_float` from the encoding tags,
`is_signed` to `False` and `_codec` to `None`. -/
def Data.init (name : String) (start : Nat) (length : Nat)
    (byte_order : ByteOrder) (scale : Rat) (offset : Rat)
    (minimum : Option Nat) (maximum : Option Nat)
    (min_num_of_items : Option Nat) (max_num_of_items : Option Nat)
    (unit : Option String) (choices : Option (List (Nat × String)))
    (encoding : String) (data_format : String) (qty : String)
    (sub_elements : List Data) : Data :=
  .mk name start
    (if qty == "field" && optTruthy maximum then maximum.getD 0 * 8 else length)
    byte_order scale offset minimum maximum min_num_of_items max_num_of_items
    unit choices encoding data_format qty
    (encoding == "flt" || data_format == "flt") false
    sub_elements none

/-- `Data.choice_string_to_number` of `data.py`: `ValueError` when the field
has no choices, otherwise the number of the first choice entry whose label
equals the given string, and `KeyError` when no entry matches. -/
def Data.choice_string_to_number (d : Data) (string : String) :
    Except PyError Nat :=
  match d.choices with
  | none => .error .valueError
  | some cs =>
    match cs.find? (fun p => p.2 == string) with
    | some p => .ok p.1
    | none => .error .keyError

/-- Little-endian integer view of a byte buffer: bit `8*i + j` of the result
is bit `j` of byte `i`, the internal LSB-of-byte-0 bit addressing scheme of
the codec (spec section 4.1). -/
def natFromBytesLE (bs : List Nat) : Nat :=
  bs.foldr (fun b acc => b % 256 + 256 * acc) 0

/-- Document-order position of a bit: converts between the LSB-of-byte-0
index of a bit and its index when the buffer is read byte by byte,
most-significant bit first (spec section 4.1).  The map is an involution. -/
def docBitPos (b : Nat) : Nat :=
  b / 8 * 8 + (7 - b % 8)

/-- Modelled from the spec (section 4.4, leaf extraction; the generic codec
of `utils.py` is not under review): extract the raw bits of a leaf field
from a buffer.  A little-endian field occupies bits `start` through
`start + length - 1` of the little-endian integer view; a big-endian field
occupies `length` consecutive document-order bits beginning at the
document-order position of `start`, most significant first. -/
def extractRaw (bo : ByteOrder) (buf : List Nat) (start length : Nat) : Nat :=
  let x := natFromBytesLE buf
  match bo with
  | .little_endian => x >>> start % 2 ^ length
  | .big_endian =>
    (List.range length).foldl
      (fun acc k =>
        acc + if x.testBit (docBitPos (docBitPos start + (length - 1 - k)))
              then 2 ^ k else 0)
      0

/-- Modelled from the spec (section 4.4): decode one leaf field.  The raw
bits are extracted per byte order; with `decode_choices`, a choice label
replaces a raw value present in the choice table; with `scaling`, the
physical value is `raw * scale + offset`. -/
def decodeLeaf (d : Data) (buf : List Nat) (decode_choices scaling : Bool) :
    Value :=
  let raw := extractRaw d.byte_order buf d.start d.length
  match (if decode_choices then d.choices.bind (List.lookup raw) else none) with
  | some label => .str label
  | none => if scaling then .num (raw * d.scale + d.offset) else .num raw

/-- Modelled from the spec (sections 4.2 and 4.4; `decode_data` of
`utils.py` is not under review): execute the compiled leaf plan against a
buffer.  `expected` is the record byte length the caller passes and
`fmtSize` the byte size the formats were compiled for (the compiled plan is
a deterministic function of the descriptor list and that size, so both are
carried explicitly here).  Every leaf field whose bit window lies inside
the buffer is decoded; a field that runs past the end of the buffer is
skipped when `allow_truncated` is set and raises otherwise. -/
def decode_data (buf : List Nat) (expected : Nat) (datas : List Data)
    (fmtSize : Nat) (decode_choices scaling allow_truncated : Bool) :
    Except PyError (List (String × Value)) :=
  match datas with
  | [] => .ok []
  | d :: rest =>
    if d.start + d.length ≤ 8 * buf.length then
      (decode_data buf expected rest fmtSize decode_choices scaling
          allow_truncated).map
        (fun m => (d.name, decodeLeaf d buf decode_choices scaling) :: m)
    else if allow_truncated then
      decode_data buf expected rest fmtSize decode_choices scaling
        allow_truncated
    else .error .valueError

/-- Python `round` as used by the spec's encode formula, on rationals. -/
def ratRound (q : Rat) : Int :=
  ⌊q + 1 / 2⌋

/-- Modelled from the spec (section 4.3): resolve one supplied value to a
raw integer.  A label string is mapped through the field's choice table
(`Data.choice_string_to_number`, which raises `KeyError` for an unknown
label); with `scaling`, the raw value is `round((physical - offset) /
scale)`; without it the value is used as the raw integer directly
(truncating division toward zero, Python `int`). -/
def resolveRaw (d : Data) (v : EncValue) (scaling : Bool) :
    Except PyError Int :=
  (match v with
    | .str s => (d.choice_string_to_number s).map (fun n => (n : Rat))
    | .num q => .ok q).map
    (fun phys =>
      if scaling then ratRound ((phys - d.offset) / d.scale)
      else Int.tdiv phys.num phys.den)

/-- Modelled from the spec (section 4.3): place the raw bits of one leaf
field into the LSB-of-byte-0 integer view of the record.  The raw value is
wrapped to the field's bit width; a little-endian field is shifted to its
start bit, a big-endian field is written most significant bit first along
consecutive document-order positions. -/
def insertRaw (bo : ByteOrder) (start length : Nat) (raw : Int) : Nat :=
  let rawN : Nat := (raw % (2 ^ length : Int)).toNat
  match bo with
  | .little_endian => rawN <<< start
  | .big_endian =>
    (List.range length).foldl
      (fun acc k =>
        acc + if rawN.testBit k
              then 2 ^ docBitPos (docBitPos start + (length - 1 - k)) else 0)
      0

/-- Reorder the low `size` bytes of an integer from the LSB-of-byte-0 view
into the big-endian integer whose byte `i` (counting from the most
significant end) is record byte `i` — the integer layout `encode_data`
returns so that a big-integer-to-bytes conversion yields the wire bytes in
order (spec section 4.3); bytes beyond `size` are discarded. -/
def reverseBytes (size x : Nat) : Nat :=
  (List.range size).foldl
    (fun acc i => acc + x >>> (8 * i) % 256 * 2 ^ (8 * (size - 1 - i)))
    0

/-- Modelled from the spec (section 4.3; `encode_data` of `utils.py` is not
under review): encode a value mapping through the compiled leaf plan into
an integer covering `fmtSize` bytes.  Each field's value is looked up by
name (`KeyError` when absent), resolved and scaled by `resolveRaw`, and its
raw bits are placed at the field's byte-order-aware position. -/
def encode_data (values : List (String × EncValue)) (datas : List Data)
    (fmtSize : Nat) (scaling : Bool) : Except PyError Nat :=
  (datas.foldlM
    (fun (acc : Nat) (d : Data) =>
      (match values.lookup d.name with
        | none => .error .keyError
        | some v =>
          (resolveRaw d v scaling).map
            (fun raw => acc ||| insertRaw d.byte_order d.start d.length raw) :
        Except PyError Nat))
    0).map
    (fun x => reverseBytes fmtSize x)

/-- The `k` base-16 digits of `e`, most significant first, zero-padded on
the left to exactly `k` digits. -/
def padDigits (k e : Nat) : List Nat :=
  (List.range k).map (fun i => e / 16 ^ (k - 1 - i) % 16)

/-- Number of hexadecimal digits of `n` (at least one), computed with a
recursion bounded by the fuel in the first argument; fuel `n` always
suffices since the digit count of a positive number never exceeds the
number itself. -/
def hexDigitsLen : Nat → Nat → Nat
  | 0, _ => 1
  | fuel + 1, n => if n < 16 then 1 else hexDigitsLen fuel (n / 16) + 1

/-- Big-endian hexadecimal digit list of a number, as Python's `hex`
renders it after the `0x` prefix (a single `0` digit for zero, no leading
zeros otherwise). -/
def hexDigitsBE (n : Nat) : List Nat :=
  padDigits (hexDigitsLen n n) n

/-- `binascii.unhexlify` on a digit list: pairs consecutive hex digits into
bytes, failing on an odd number of digits. -/
def unhexlify : List Nat → Option (List Nat)
  | [] => some []
  | [_] => none
  | a :: b :: rest => (unhexlify rest).map (fun bs => (16 * a + b) :: bs)

/-- Ordered-dictionary update: `m[k] = v` on a Python dict replaces the
value of an existing key in place (keeping its position) and appends a new
key at the end. -/
def setKey (m : List (String × Value)) (k : String) (v : Value) :
    List (String × Value) :=
  if m.any (fun p => p.1 == k) then
    m.map (fun p => if p.1 == k then (k, v) else p)
  else m ++ [(k, v)]

/-- The record container of `did.py` (`class Did`).  `codec` is the
`_codec` slot: the descriptor list and the byte size handed to
`create_encode_decode_formats` (see `Data`). -/
structure Did where
  identifier : Nat
  name : String
  length : Nat
  datas : List Data
  codec : Option (List Data × Nat)
  protocol_services : List String

/-- The body of the loop in `Did.refresh` of `did.py` for one descriptor:
a descriptor with sub-elements gets a compiled sub-codec whose byte size is
`maximum // max_num_of_items` when `qty == 'field'` and both attributes are
truthy (the comment in the source notes `minimum` can be 0), and
`length // 8` otherwise; a descriptor without sub-elements is untouched. -/
def Data.refreshCodec (d : Data) : Data :=
  if d.sub_elements.isEmpty then d
  else if d.qty == "field" && optTruthy d.max_num_of_items
          && optTruthy d.maximum then
    d.withCodec (some (d.sub_elements, d.maximum.getD 0 / d.max_num_of_items.getD 1))
  else
    d.withCodec (some (d.sub_elements, d.length / 8))

/-- `Did.refresh` of `did.py`: compile a sub-codec for every descriptor
with sub-elements, then set the record's own codec to the (updated)
descriptor list with the record byte length. -/
def Did.refresh (did : Did) : Did :=
  let datas := did.datas.map Data.refreshCodec
  { did with datas := datas, codec := some (datas, did.length) }

/-- `Did.__init__` of `did.py`: store identifier, name, byte length and
descriptor list, initialise `_codec` to `None` and `protocol_services` to
the empty list, then `refresh`. -/
def Did.init (identifier : Nat) (name : String) (length : Nat)
    (datas : List Data) : Did :=
  Did.refresh
    { identifier := identifier, name := name, length := length,
      datas := datas, codec := none, protocol_services := [] }

/-- `Did.get_data_by_name` of `did.py`: return the first descriptor whose
name matches, else raise `KeyError`. -/
def Did.get_data_by_name (did : Did) (name : String) : Except PyError Data :=
  match did.datas.find? (fun d => d.name == name) with
  | some d => .ok d
  | none => .error .keyError

/-- `Did.encode` of `did.py`: run the leaf encoder over the compiled codec,
set the guard bit `0x80` above the record (`encoded |= 0x80 << (8 *
length)`), convert through `hex(...)[4:]` — which drops the `0x` prefix and
the two guard digits — and `binascii.unhexlify`, and truncate to the record
byte length. -/
def Did.encode (did : Did) (data : List (String × EncValue))
    (scaling : Bool) : Except PyError (List Nat) :=
  match did.codec with
  | none => .error .typeError
  | some (cdatas, cfmt) =>
    match encode_data data cdatas cfmt scaling with
    | .error e => .error e
    | .ok encoded =>
      match unhexlify ((hexDigitsBE (encoded ||| 0x80 <<< (8 * did.length))).drop 2) with
      | some bs => .ok (bs.take did.length)
      | none => .error .binasciiError

/-- The repeating-group loop of `Did.decode` of `did.py` (lines 144-166).
Arguments after the colon: remaining iteration count (`max_num_of_items`
minus the current index), the current index `i`, the running `_byte_offset`
and the accumulated `dec_data_list`.  Each step slices
`data[start//8 + offset : start//8 + iterLen + offset]`; a short slice
raises `BufferError(minN)` when `i < min_num_of_items` and truncation is
disallowed and otherwise appends the `None` sentinel and stops; a full
slice is decoded with the sub-codec and appended. -/
def structLoop (startByte iterLen minN : Nat) (subDatas : List Data)
    (subFmt : Nat) (data : List Nat)
    (decode_choices scaling allow_truncated : Bool) :
    Nat → Nat → Nat → List Value → Except PyError (List Value)
  | 0, _, _, acc => .ok acc
  | remaining + 1, i, byteOffset, acc =>
    let sub := (data.drop (startByte + byteOffset)).take iterLen
    if sub.length < iterLen then
      if i < minN ∧ allow_truncated = false then .error (.bufferError minN)
      else .ok (acc ++ [Value.null])
    else
      match decode_data sub sub.length subDatas subFmt
              decode_choices scaling allow_truncated with
      | .error e => .error e
      | .ok m =>
        structLoop startByte iterLen minN subDatas subFmt data
          decode_choices scaling allow_truncated
          remaining (i + 1) (byteOffset + sub.length) (acc ++ [Value.dict m])

/-- Decode all items of one repeating/structured descriptor, as `Did.decode`
does: the per-item byte size is `minimum // min_num_of_items` (raising
`TypeError` when an attribute is `None` — Python `//` on `None` — and
`ZeroDivisionError` when `min_num_of_items` is zero), iterating
`max_num_of_items` times from byte `start // 8`. -/
def structItems (d : Data) (subDatas : List Data) (subFmt : Nat)
    (data : List Nat) (decode_choices scaling allow_truncated : Bool) :
    Except PyError (List Value) :=
  match d.minimum, d.min_num_of_items, d.max_num_of_items with
  | some minB, some minN, some maxN =>
    if minN = 0 then .error .zeroDivisionError
    else
      structLoop (d.start / 8) (minB / minN) minN subDatas subFmt data
        decode_choices scaling allow_truncated maxN 0 0 []
  | _, _, _ => .error .typeError

/-- The second phase of `Did.decode` of `did.py`: walk `self.datas` and,
for every descriptor with a compiled sub-codec, replace its entry in the
decoded mapping by the repeating-group result — the bare first item when
`min_num_of_items == max_num_of_items == 1` (IndexError on an empty item
list, as `dec_data_list[0]` would raise), the item list otherwise. -/
def structPass (data : List Nat) (decode_choices scaling allow_truncated : Bool) :
    List Data → List (String × Value) → Except PyError (List (String × Value))
  | [], acc => .ok acc
  | d :: rest, acc =>
    match d.codec with
    | none => structPass data decode_choices scaling allow_truncated rest acc
    | some (subDatas, subFmt) =>
      match structItems d subDatas subFmt data
              decode_choices scaling allow_truncated with
      | .error e => .error e
      | .ok items =>
        if d.min_num_of_items = d.max_num_of_items
            ∧ d.max_num_of_items = some 1 then
          match items with
          | [] => .error .indexError
          | v :: _ =>
            structPass data decode_choices scaling allow_truncated rest
              (setKey acc d.name v)
        else
          structPass data decode_choices scaling allow_truncated rest
            (setKey acc d.name (Value.seq items))

/-- `Did.decode` of `did.py`: decode all elements through the leaf codec,
then decode the sub-elements of every descriptor that has a compiled
sub-codec and replace the corresponding entries. -/
def Did.decode (did : Did) (data : List Nat)
    (decode_choices scaling allow_truncated : Bool) :
    Except PyError (List (String × Value)) :=
  match did.codec with
  | none => .error .typeError
  | some (cdatas, cfmt) =>
    match decode_data data did.length cdatas cfmt
            decode_choices scaling allow_truncated with
    | .error e => .error e
    | .ok decoded =>
      structPass data decode_choices scaling allow_truncated did.datas decoded

/-- The internal diagnostics database of `internal_database.py`:
`InternalDatabase.__init__` accepts exactly the parameters
`protocol_services` and `variants` and stores them. -/
structure InternalDatabase where
  protocol_services : List String
  variants : List String

/-- The parameter names of `InternalDatabase.__init__` (after `self`). -/
def internalDatabaseInitParams : List String :=
  ["protocol_services", "variants"]

/-- The keyword-argument names of the `InternalDatabase(...)` call on the
final line of `load_string` in `formats/cdd.py`. -/
def loadStringFinalCallKwargs : List String :=
  ["protocol_services", "variants", "dids", "dtcs"]

/-- Python keyword-argument binding for a call that supplies every
parameter by keyword: the call raises `TypeError` when some keyword is not
among the callee's parameter names. -/
def bindKwargs (params kwargs : List String) : Except PyError Unit :=
  if kwargs.all (fun k => params.contains k) then .ok () else .error .typeError

/-- The intermediate results of `load_string` of `formats/cdd.py` right
before its final line: the parsed protocol services, variant names, DIDs
and DTCs (their element types are irrelevant to the construction step and
kept abstract as names). -/
structure LoadStringStage where
  protocol_services : List String
  variant_names : List String
  dids : List Did
  dtcs : List String

/-- `load_string` of `formats/cdd.py`, abstracted over the outcome of its
XML parsing stages (lines 566-590, which only read the input string): when
any stage raises, the error propagates; otherwise the final line calls
`InternalDatabase(protocol_services=..., variants=..., dids=..., dtcs=...)`
with the keyword arguments named by `loadStringFinalCallKwargs`. -/
def load_string (parse : Except PyError LoadStringStage) :
    Except PyError InternalDatabase :=
  match parse with
  | .error e => .error e
  | .ok st =>
    match bindKwargs internalDatabaseInitParams loadStringFinalCallKwargs with
    | .error e => .error e
    | .ok _ => .ok ⟨st.protocol_services, st.variant_names⟩

@[simp] theorem Data.name_mk (n : String) (st le : Nat) (bo : ByteOrder)
    (sc o : Rat) (mi ma mni mxi : Option Nat) (u : Option String)
    (ch : Option (List (Nat × String))) (e df q : String) (fl sg : Bool)
    (se : List Data) (c : Option (List Data × Nat)) :
    (Data.mk n st le bo sc o mi ma mni mxi u ch e df q fl sg se c).name = n :=
  rfl

@[simp] theorem Data.start_mk (n : String) (st le : Nat) (bo : ByteOrder)
    (sc o : Rat) (mi ma mni mxi : Option Nat) (u : Option String)
    (ch : Option (List (Nat × String))) (e df q : String) (fl sg : Bool)
    (se : List Data) (c : Option (List Data × Nat)) :
    (Data.mk n st le bo sc o mi ma mni mxi u ch e df q fl sg se c).start = st :=
  rfl

@[simp] theorem Data.length_mk (n : String) (st le : Nat) (bo : ByteOrder)
    (sc o : Rat) (mi ma mni mxi : Option Nat) (u : Option String)
    (ch : Option (List (Nat × String))) (e df q : String) (fl sg : Bool)
    (se : List Data) (c : Option (List Data × Nat)) :
    (Data.mk n st le bo sc o mi ma mni mxi u ch e df q fl sg se c).length = le :=
  rfl

@[simp] theorem Data.byte_order_mk (n : String) (st le : Nat) (bo : ByteOrder)
    (sc o : Rat) (mi ma mni mxi : Option Nat) (u : Option String)
    (ch : Option (List (Nat × String))) (e df q : String) (fl sg : Bool)
    (se : List Data) (c : Option (List Data × Nat)) :
    (Data.mk n st le bo sc o mi ma mni mxi u ch e df q fl sg se c).byte_order = bo :=
  rfl

@[simp] theorem Data.scale_mk (n : String) (st le : Nat) (bo : ByteOrder)
    (sc o : Rat) (mi ma mni mxi : Option Nat) (u : Option String)
    (ch : Option (List (Nat × String))) (e df q : String) (fl sg : Bool)
    (se : List Data) (c : Option (List Data × Nat)) :
    (Data.mk n st le bo sc o mi ma mni mxi u ch e df q fl sg se c).scale = sc :=
  rfl

@[simp] theorem Data.offset_mk (n : String) (st le : Nat) (bo : ByteOrder)
    (sc o : Rat) (mi ma mni mxi : Option Nat) (u : Option String)
    (ch : Option (List (Nat × String))) (e df q : String) (fl sg : Bool)
    (se : List Data) (c : Option (List Data × Nat)) :
    (Data.mk n st le bo sc o mi ma mni mxi u ch e df q fl sg se c).offset = o :=
  rfl

@[simp] theorem Data.minimum_mk (n : String) (st le : Nat) (bo : ByteOrder)
    (sc o : Rat) (mi ma mni mxi : Option Nat) (u : Option String)
    (ch : Option (List (Nat × String))) (e df q : String) (fl sg : Bool)
    (se : List Data) (c : Option (List Data × Nat)) :
    (Data.mk n st le bo sc o mi ma mni mxi u ch e df q fl sg se c).minimum = mi :=
  rfl

@[simp] theorem Data.maximum_mk (n : String) (st le : Nat) (bo : ByteOrder)
    (sc o : Rat) (mi ma mni mxi : Option Nat) (u : Option String)
    (ch : Option (List (Nat × String))) (e df q : String) (fl sg : Bool)
    (se : List Data) (c : Option (List Data × Nat)) :
    (Data.mk n st le bo sc o mi ma mni mxi u ch e df q fl sg se c).maximum = ma :=
  rfl

@[simp] theorem Data.min_num_of_items_mk (n : String) (st le : Nat)
    (bo : ByteOrder) (sc o : Rat) (mi ma mni mxi : Option Nat)
    (u : Option String) (ch : Option (List (Nat × String))) (e df q : String)
    (fl sg : Bool) (se : List Data) (c : Option (List Data × Nat)) :
    (Data.mk n st le bo sc o mi ma mni mxi u ch e df q fl sg se c).min_num_of_items = mni :=
  rfl

@[simp] theorem Data.max_num_of_items_mk (n : String) (st le : Nat)
    (bo : ByteOrder) (sc o : Rat) (mi ma mni mxi : Option Nat)
    (u : Option String) (ch : Option (List (Nat × String))) (e df q : String)
    (fl sg : Bool) (se : List Data) (c : Option (List Data × Nat)) :
    (Data.mk n st le bo sc o mi ma mni mxi u ch e df q fl sg se c).max_num_of_items = mxi :=
  rfl

@[simp] theorem Data.choices_mk (n : String) (st le : Nat) (bo : ByteOrder)
    (sc o : Rat) (mi ma mni mxi : Option Nat) (u : Option String)
    (ch : Option (List (Nat × String))) (e df q : String) (fl sg : Bool)
    (se : List Data) (c : Option (List Data × Nat)) :
    (Data.mk n st le bo sc o mi ma mni mxi u ch e df q fl sg se c).choices = ch :=
  rfl

@[simp] theorem Data.qty_mk (n : String) (st le : Nat) (bo : ByteOrder)
    (sc o : Rat) (mi ma mni mxi : Option Nat) (u : Option String)
    (ch : Option (List (Nat × String))) (e df q : String) (fl sg : Bool)
    (se : List Data) (c : Option (List Data × Nat)) :
    (Data.mk n st le bo sc o mi ma mni mxi u ch e df q fl sg se c).qty = q :=
  rfl

@[simp] theorem Data.sub_elements_mk (n : String) (st le : Nat)
    (bo : ByteOrder) (sc o : Rat) (mi ma mni mxi : Option Nat)
    (u : Option String) (ch : Option (List (Nat × String))) (e df q : String)
    (fl sg : Bool) (se : List Data) (c : Option (List Data × Nat)) :
    (Data.mk n st le bo sc o mi ma mni mxi u ch e df q fl sg se c).sub_elements = se :=
  rfl

@[simp] theorem Data.codec_mk (n : String) (st le : Nat) (bo : ByteOrder)
    (sc o : Rat) (mi ma mni mxi : Option Nat) (u : Option String)
    (ch : Option (List (Nat × String))) (e df q : String) (fl sg : Bool)
    (se : List Data) (c : Option (List Data × Nat)) :
    (Data.mk n st le bo sc o mi ma mni mxi u ch e df q fl sg se c).codec = c :=
  rfl

@[simp] theorem Data.codec_withCodec (d : Data) (c : Option (List Data × Nat)) :
    (d.withCodec c).codec = c := by
  cases d
  rfl

@[simp] theorem Data.name_withCodec (d : Data) (c : Option (List Data × Nat)) :
    (d.withCodec c).name = d.name := by
  cases d
  rfl

@[simp] theorem Data.sub_elements_withCodec (d : Data)
    (c : Option (List Data × Nat)) :
    (d.withCodec c).sub_elements = d.sub_elements := by
  cases d
  rfl

@[simp] theorem Data.min_num_of_items_withCodec (d : Data)
    (c : Option (List Data × Nat)) :
    (d.withCodec c).min_num_of_items = d.min_num_of_items := by
  cases d
  rfl

@[simp] theorem Data.max_num_of_items_withCodec (d : Data)
    (c : Option (List Data × Nat)) :
    (d.withCodec c).max_num_of_items = d.max_num_of_items := by
  cases d
  rfl

@[simp] theorem Data.minimum_withCodec (d : Data)
    (c : Option (List Data × Nat)) :
    (d.withCodec c).minimum = d.minimum := by
  cases d
  rfl

@[simp] theorem Data.start_withCodec (d : Data) (c : Option (List Data × Nat)) :
    (d.withCodec c).start = d.start := by
  cases d
  rfl

@[simp] theorem Data.length_withCodec (d : Data) (c : Option (List Data × Nat)) :
    (d.withCodec c).length = d.length := by
  cases d
  rfl

@[simp] theorem Data.byte_order_withCodec (d : Data)
    (c : Option (List Data × Nat)) :
    (d.withCodec c).byte_order = d.byte_order := by
  cases d
  rfl

@[simp] theorem Data.choices_withCodec (d : Data)
    (c : Option (List Data × Nat)) :
    (d.withCodec c).choices = d.choices := by
  cases d
  rfl

@[simp] theorem Data.scale_withCodec (d : Data) (c : Option (List Data × Nat)) :
    (d.withCodec c).scale = d.scale := by
  cases d
  rfl

@[simp] theorem Data.offset_withCodec (d : Data) (c : Option (List Data × Nat)) :
    (d.withCodec c).offset = d.offset := by
  cases d
  rfl

theorem Data.refreshCodec_of_empty (d : Data) (h : d.sub_elements.isEmpty) :
    d.refreshCodec = d := by
  unfold Data.refreshCodec
  simp [h]

theorem Data.refreshCodec_codec_of_not_empty (d : Data)
    (h : ¬ d.sub_elements.isEmpty) :
    (d.refreshCodec).codec =
      some (d.sub_elements,
        if d.qty == "field" && optTruthy d.max_num_of_items
            && optTruthy d.maximum
        then d.maximum.getD 0 / d.max_num_of_items.getD 1
        else d.length / 8) := by
  unfold Data.refreshCodec
  simp [h]
  split <;> simp

theorem Data.refreshCodec_name (d : Data) : d.refreshCodec.name = d.name := by
  unfold Data.refreshCodec
  split
  · rfl
  · split <;> simp

theorem Data.refreshCodec_sub_elements (d : Data) :
    d.refreshCodec.sub_elements = d.sub_elements := by
  unfold Data.refreshCodec
  split
  · rfl
  · split <;> simp

/-- Claim C9: a descriptor constructed with `qty == 'field'` and a truthy
`maximum` has bit length `maximum * 8` regardless of the supplied `length`
argument; any other descriptor keeps the supplied `length`. -/
theorem claim_C9_data_init_length (name : String) (start length : Nat)
    (byte_order : ByteOrder) (scale offset : Rat)
    (minimum maximum min_num_of_items max_num_of_items : Option Nat)
    (unit : Option String) (choices : Option (List (Nat × String)))
    (encoding data_format qty : String) (sub_elements : List Data) :
    ((qty = "field" → ∀ m, maximum = some m → m ≠ 0 →
      (Data.init name start length byte_order scale offset minimum maximum
        min_num_of_items max_num_of_items unit choices encoding data_format
        qty sub_elements).length = m * 8))
    ∧ ((qty ≠ "field" ∨ maximum = none ∨ maximum = some 0) →
      (Data.init name start length byte_order scale offset minimum maximum
        min_num_of_items max_num_of_items unit choices encoding data_format
        qty sub_elements).length = length) := by
  constructor
  · intro hq m hm hm0
    subst hq hm
    simp [Data.init, optTruthy, hm0]
  · intro h
    rcases h with h | h | h
    · simp [Data.init, optTruthy, h]
    · subst h
      simp [Data.init, optTruthy]
    · subst h
      simp [Data.init, optTruthy]

/-- Witness for C9 at concrete inputs: `qty='field'`, `maximum=6` gives bit
length 48 although `length=16` was supplied; `qty='atom'` keeps 16. -/
theorem claim_C9_witness :
    ("field" = "field")
    ∧ (Data.init "A" 0 16 .little_endian 1 0 none (some 6) none none none
        none "uns" "dec" "field" []).length = 6 * 8
    ∧ ("atom" ≠ "field")
    ∧ (Data.init "A" 0 16 .little_endian 1 0 none (some 6) none none none
        none "uns" "dec" "atom" []).length = 16 :=
  ⟨rfl,
   (claim_C9_data_init_length "A" 0 16 .little_endian 1 0 none (some 6) none
       none none none "uns" "dec" "field" []).1 rfl 6 rfl (by decide),
   by decide,
   (claim_C9_data_init_length "A" 0 16 .little_endian 1 0 none (some 6) none
       none none none "uns" "dec" "atom" []).2 (Or.inl (by decide))⟩

/-- Claim C10: `load_string` can never return a database: whatever the XML
parsing stages produce, the final construction step passes the unexpected
keyword arguments `dids` and `dtcs` to `InternalDatabase.__init__`, which
accepts only `protocol_services` and `variants`, so the call raises a
`TypeError`. -/
theorem claim_C10_load_string_never_returns
    (parse : Except PyError LoadStringStage) :
    (∀ db : InternalDatabase, load_string parse ≠ .ok db)
    ∧ (∀ st, parse = .ok st → load_string parse = .error .typeError) := by
  have hbind : bindKwargs internalDatabaseInitParams loadStringFinalCallKwargs
      = .error .typeError := by
    simp [bindKwargs, internalDatabaseInitParams, loadStringFinalCallKwargs]
  constructor
  · intro db h
    cases parse with
    | error e => simp [load_string] at h
    | ok st =>
      rw [load_string, hbind] at h
      cases h
  · intro st hst
    subst hst
    rw [load_string, hbind]

/-- Witness for C10: the final construction step fails with `TypeError`
even on a successfully parsed empty document. -/
theorem claim_C10_witness :
    load_string (.ok ⟨[], [], [], []⟩) = .error .typeError :=
  (claim_C10_load_string_never_returns (.ok ⟨[], [], [], []⟩)).2 _ rfl

/-- Claim C8: `get_data_by_name` returns a descriptor of the record whose
name equals the requested string when one exists, and raises `KeyError`
when none does; being a pure function of the record, it leaves the record
unchanged. -/
theorem claim_C8_get_data_by_name (did : Did) (nm : String) :
    ((∃ d ∈ did.datas, d.name = nm) →
      ∃ d, did.get_data_by_name nm = .ok d ∧ d ∈ did.datas ∧ d.name = nm)
    ∧ ((∀ d ∈ did.datas, d.name ≠ nm) →
      did.get_data_by_name nm = .error .keyError) := by
  constructor
  · intro h
    cases hf : did.datas.find? (fun d => d.name == nm) with
    | some d =>
      refine ⟨d, ?_, List.mem_of_find?_eq_some hf, ?_⟩
      · simp [Did.get_data_by_name, hf]
      · have := List.find?_some hf
        simpa using this
    | none =>
      obtain ⟨d, hd, hdn⟩ := h
      have := List.find?_eq_none.mp hf d hd
      simp [hdn] at this
  · intro h
    cases hf : did.datas.find? (fun d => d.name == nm) with
    | some d =>
      have hmem := List.mem_of_find?_eq_some hf
      have hname := List.find?_some hf
      simp at hname
      exact absurd hname (h d hmem)
    | none =>
      simp [Did.get_data_by_name, hf]

/-- The leaf descriptors and record of the spec's concrete scenario
(section 8): `Bar` at start bit 0, `Fum` at start bit 8, record length 2. -/
def barData : Data :=
  Data.init "Bar" 0 8 .little_endian 1 0 none none none none none none
    "uns" "dec" "atom" []

def fumData : Data :=
  Data.init "Fum" 8 8 .little_endian 1 0 none none none none none none
    "uns" "dec" "atom" []

def fooDid : Did :=
  Did.init 1 "Foo" 2 [barData, fumData]

/-- Witness for C8: on the concrete two-field record, looking up `Bar`
succeeds with the `Bar` descriptor and looking up `Baz` raises `KeyError`. -/
theorem claim_C8_witness :
    ((∃ d ∈ fooDid.datas, d.name = "Bar") ∧
      ∃ d, fooDid.get_data_by_name "Bar" = .ok d ∧ d ∈ fooDid.datas
        ∧ d.name = "Bar")
    ∧ ((∀ d ∈ fooDid.datas, d.name ≠ "Baz") ∧
      fooDid.get_data_by_name "Baz" = .error .keyError) := by
  have hmem : barData ∈ fooDid.datas := List.Mem.head _
  have hall : ∀ d ∈ fooDid.datas, d.name ≠ "Baz" := by
    intro d hd
    simp [fooDid, Did.init, Did.refresh, Data.refreshCodec, barData, fumData,
      Data.init] at hd
    rcases hd with h | h <;> subst h <;> decide
  exact ⟨⟨⟨barData, hmem, rfl⟩,
          (claim_C8_get_data_by_name fooDid "Bar").1 ⟨barData, hmem, rfl⟩⟩,
         ⟨hall, (claim_C8_get_data_by_name fooDid "Baz").2 hall⟩⟩

/-- A leaf descriptor and a structured descriptor used for the refresh
invariant analysis. -/
def c6leaf : Data :=
  Data.init "x" 0 8 .little_endian 1 0 none none none none none none
    "uns" "dec" "atom" []

def c6struct : Data :=
  Data.init "S" 0 16 .little_endian 1 0 none none none none none none
    "" "" "" [c6leaf]

def c6did1 : Did :=
  Did.init 6 "C6" 2 [c6struct]

/-- The record of `c6did1` after the external structural mutation that
empties the structured descriptor's `sub_elements` (the lifecycle the spec
allows between `refresh` calls). -/
def c6mutated : Did :=
  { c6did1 with datas := c6did1.datas.map (fun d => d.withSubElements []) }

/-- Counterexample to claim C6: after a `refresh` of a record whose
structured descriptor had its `sub_elements` emptied, the invariant fails —
the descriptor now has empty `sub_fields` yet still carries its stale
compiled sub-plan, because `refresh` never clears `_codec`. -/
theorem claim_C6_counterexample :
    ¬ ((Did.refresh c6mutated).codec.isSome = true
      ∧ (∀ d ∈ (Did.refresh c6mutated).datas,
          d.sub_elements.isEmpty = false → d.codec.isSome = true)
      ∧ (∀ d ∈ (Did.refresh c6mutated).datas,
          d.sub_elements.isEmpty = true → d.codec.isNone = true)) := by
  decide

/-- Claim C6 (amended): after construction of a `Did` from freshly
constructed descriptors (whose `_codec` slots are still `None`, as
`Data.__init__` leaves them) the full invariant holds: the record has a
compiled plan, every descriptor with sub-elements has a compiled sub-plan
and every descriptor without sub-elements has none.  After an arbitrary
`refresh` the record has a compiled plan and every descriptor with
sub-elements has a compiled sub-plan, but a descriptor whose sub-elements
were emptied may retain a stale sub-plan (`refresh` does not clear it). -/
theorem claim_C6_amended (identifier : Nat) (nm : String) (L : Nat)
    (datas : List Data) (hfresh : ∀ d ∈ datas, d.codec = none) (did : Did) :
    ((Did.init identifier nm L datas).codec ≠ none
      ∧ ∀ d ∈ (Did.init identifier nm L datas).datas,
          (d.sub_elements ≠ [] → d.codec ≠ none)
          ∧ (d.sub_elements = [] → d.codec = none))
    ∧ ((Did.refresh did).codec ≠ none
      ∧ ∀ d ∈ (Did.refresh did).datas,
          d.sub_elements ≠ [] → d.codec ≠ none) := by
  have key : ∀ d : Data, d.sub_elements ≠ [] → d.refreshCodec.codec ≠ none := by
    intro d hne
    have : ¬ d.sub_elements.isEmpty := by
      simpa [List.isEmpty_iff] using hne
    rw [Data.refreshCodec_codec_of_not_empty d this]
    simp
  refine ⟨⟨?_, ?_⟩, ?_, ?_⟩
  · simp [Did.init, Did.refresh]
  · intro d hd
    simp only [Did.init, Did.refresh, List.mem_map] at hd
    obtain ⟨d0, hd0, rfl⟩ := hd
    constructor
    · intro hne
      refine key d0 ?_
      rwa [Data.refreshCodec_sub_elements] at hne
    · intro hemp
      rw [Data.refreshCodec_sub_elements] at hemp
      have hempb : d0.sub_elements.isEmpty := by simp [hemp]
      rw [Data.refreshCodec_of_empty d0 hempb]
      exact hfresh d0 hd0
  · simp [Did.refresh]
  · intro d hd
    simp only [Did.refresh, List.mem_map] at hd
    obtain ⟨d0, hd0, rfl⟩ := hd
    intro hne
    refine key d0 ?_
    rwa [Data.refreshCodec_sub_elements] at hne

/-- Witness for the amended C6 at a concrete input: a freshly constructed
record with one structured descriptor. -/
theorem claim_C6_witness :
    (∀ d ∈ [c6struct], d.codec = none)
    ∧ (((Did.init 6 "C6" 2 [c6struct]).codec ≠ none
        ∧ ∀ d ∈ (Did.init 6 "C6" 2 [c6struct]).datas,
            (d.sub_elements ≠ [] → d.codec ≠ none)
            ∧ (d.sub_elements = [] → d.codec = none))
      ∧ ((Did.refresh fooDid).codec ≠ none
        ∧ ∀ d ∈ (Did.refresh fooDid).datas,
            d.sub_elements ≠ [] → d.codec ≠ none)) := by
  have hfresh : ∀ d ∈ [c6struct], d.codec = none := by
    intro d hd
    rw [List.mem_singleton] at hd
    subst hd
    rfl
  exact ⟨hfresh, claim_C6_amended 6 "C6" 2 [c6struct] hfresh fooDid⟩

/-- A structured descriptor (one 8-bit sub-field) inside a two-byte record,
for the structured-encode analysis. -/
def c1leaf : Data :=
  Data.init "Inner" 0 8 .little_endian 1 0 none none none none none none
    "uns" "dec" "atom" []

def c1struct : Data :=
  Data.init "S" 0 16 .little_endian 1 0 (some 2) (some 2) (some 1) (some 1)
    none none "" "" "field" [c1leaf]

def c1did : Did :=
  Did.init 3 "C1" 2 [c1struct]

/-- Claim C1 evaluated at the failing input: `Did.encode` on a record whose
only field is structured (non-empty `sub_fields`) does not fail — there is
no unsupported-operation guard anywhere in `Did.encode` (only a `todo`
comment in the source) — and happily returns a byte sequence, leaf-encoding
the structured field through the generic packer. -/
theorem claim_C1_encode_of_structured_returns_bytes :
    c1struct.sub_elements ≠ []
    ∧ c1did.encode [("S", EncValue.num 0)] false = .ok [0x00, 0x00] := by
  constructor
  · intro h
    simp [c1struct, Data.init] at h
  · rfl

/-- The repeating-group descriptor whose decode-time item size
(`minimum // min_num_of_items = 1` byte) differs from the compiled
sub-plan item size (`maximum // max_num_of_items = 2` bytes). -/
def c2leaf : Data :=
  Data.init "x" 0 8 .little_endian 1 0 none none none none none none
    "uns" "dec" "atom" []

def c2struct : Data :=
  Data.init "S" 0 16 .little_endian 1 0 (some 1) (some 6) (some 1) (some 3)
    none none "" "" "field" [c2leaf]

def c2did : Did :=
  Did.init 2 "C2" 6 [c2struct]

/-- Claim C2 evaluated at the failing input: `refresh` compiles the
sub-plan with the per-item byte size `maximum // max_num_of_items = 6 // 3
= 2`, but `decode` slices the buffer in steps of `minimum //
min_num_of_items = 1 // 1 = 1` byte — decoding the bytes `1, 2, 3` at
offsets 0, 1, 2 as the three items, where the claim's `maximum /
max_items` item size would consume two bytes per item (items `1, 3, 5` at
offsets 0, 2, 4). -/
theorem claim_C2_decode_uses_minimum_item_size :
    c2struct.refreshCodec.codec = some ([c2leaf], 2)
    ∧ c2did.decode [1, 2, 3, 4, 5, 6] false false false =
      .ok [("S", Value.seq
        [Value.dict [("x", Value.num 1)],
         Value.dict [("x", Value.num 2)],
         Value.dict [("x", Value.num 3)]])] := by
  constructor
  · rfl
  · rfl

theorem le_lor_right (a b : Nat) : b ≤ a ||| b :=
  Nat.le_of_testBit (fun i h => by rw [Nat.testBit_lor]; simp [h])

theorem unhexlify_length (ds : List Nat) :
    ∀ bs, unhexlify ds = some bs → ds.length = 2 * bs.length := by
  match ds with
  | [] =>
    intro bs h
    simp [unhexlify] at h
    subst h
    simp
  | [a] =>
    intro bs h
    simp [unhexlify] at h
  | a :: b :: rest =>
    intro bs h
    simp only [unhexlify, Option.map_eq_some'] at h
    obtain ⟨bs', h1, h2⟩ := h
    have ih := unhexlify_length rest bs' h1
    subst h2
    simp [ih]
    omega

theorem hexDigitsLen_ge (fuel : Nat) :
    ∀ n k, n ≤ fuel → 16 ^ k ≤ n → k + 1 ≤ hexDigitsLen fuel n := by
  induction fuel with
  | zero =>
    intro n k hn hk
    have : 0 < 16 ^ k := Nat.pos_pow_of_pos k (by norm_num)
    omega
  | succ fuel ih =>
    intro n k hn hk
    rw [hexDigitsLen]
    split
    · rename_i hlt
      have : k = 0 := by
        by_contra hne
        have h16 : 16 ^ 1 ≤ 16 ^ k := Nat.pow_le_pow_right (by norm_num) (by omega)
        simp at h16
        omega
      omega
    · rename_i hge
      cases k with
      | zero => omega
      | succ j =>
        have hdiv : 16 ^ j ≤ n / 16 := by
          have : 16 ^ j * 16 ≤ n := by
            calc 16 ^ j * 16 = 16 ^ (j + 1) := by ring
            _ ≤ n := hk
          omega
        have hfuel : n / 16 ≤ fuel := by omega
        have := ih (n / 16) j hfuel hdiv
        omega

theorem hexDigitsBE_length_ge (g k : Nat) (h : 16 ^ k ≤ g) :
    k + 1 ≤ (hexDigitsBE g).length := by
  rw [hexDigitsBE, padDigits, List.length_map, List.length_range]
  exact hexDigitsLen_ge g g k le_rfl h

/-- Claim C5: whenever `Did.encode` succeeds, the returned byte sequence
has exactly `byte_length` bytes: the guard bit `0x80` set above the
record's range forces the hexadecimal rendering to carry at least
`2 * byte_length + 2` digits, so after dropping the two guard digits the
unhexlified conversion yields at least `byte_length` bytes, and the final
truncation returns exactly `byte_length` of them. -/
theorem claim_C5_encode_length (did : Did) (values : List (String × EncValue))
    (scaling : Bool) (bs : List Nat)
    (h : did.encode values scaling = .ok bs) :
    bs.length = did.length := by
  rw [Did.encode] at h
  cases hc : did.codec with
  | none => rw [hc] at h; cases h
  | some c =>
    obtain ⟨cdatas, cfmt⟩ := c
    rw [hc] at h
    dsimp only at h
    cases he : encode_data values cdatas cfmt scaling with
    | error e => rw [he] at h; cases h
    | ok e =>
      rw [he] at h
      dsimp only at h
      cases hu : unhexlify ((hexDigitsBE (e ||| 0x80 <<< (8 * did.length))).drop 2) with
      | none => rw [hu] at h; cases h
      | some bs0 =>
        rw [hu] at h
        dsimp only at h
        cases h
        have hg : 2 ^ (8 * did.length + 7) ≤ e ||| 0x80 <<< (8 * did.length) := by
          have hsh : (0x80 : Nat) <<< (8 * did.length) = 2 ^ (8 * did.length + 7) := by
            rw [Nat.shiftLeft_eq]
            rw [pow_add]
            norm_num
            ring
          rw [← hsh]
          exact le_lor_right e _
        have h16 : 16 ^ (2 * did.length + 1) ≤ e ||| 0x80 <<< (8 * did.length) := by
          refine le_trans ?_ hg
          have : (16 : Nat) ^ (2 * did.length + 1) = 2 ^ (4 * (2 * did.length + 1)) := by
            rw [show (16 : Nat) = 2 ^ 4 by norm_num, ← pow_mul]
          rw [this]
          exact Nat.pow_le_pow_right (by norm_num) (by omega)
        have hlen : 2 * did.length + 2 ≤
            (hexDigitsBE (e ||| 0x80 <<< (8 * did.length))).length :=
          hexDigitsBE_length_ge _ _ h16
        have hds := unhexlify_length _ _ hu
        rw [List.length_drop] at hds
        simp only [List.length_take]
        omega

/-- Witness for C5: the spec's concrete two-field record encodes
`Bar := 1, Fum := 69` to exactly the two bytes `0x01 0x45`. -/
theorem claim_C5_witness :
    fooDid.encode [("Bar", EncValue.num 1), ("Fum", EncValue.num 69)] false
      = .ok [0x01, 0x45]
    ∧ ([0x01, 0x45] : List Nat).length = fooDid.length :=
  ⟨rfl,
   claim_C5_encode_length fooDid
     [("Bar", EncValue.num 1), ("Fum", EncValue.num 69)] false [0x01, 0x45]
     rfl⟩

theorem Data.refreshCodec_choices (d : Data) :
    d.refreshCodec.choices = d.choices := by
  unfold Data.refreshCodec
  split
  · rfl
  · split <;> simp

/-- Claim C7: for a field with a choice table, encode maps a supplied label
string to its numeric code — encoding the label is the same as encoding
that code — when some entry carries the label, and fails with the
`KeyError` that `choice_string_to_number` raises (the UnknownChoiceError
kind) when the label is absent. -/
theorem claim_C7_choice_label_resolution (d : Data)
    (cs : List (Nat × String)) (s : String) (hch : d.choices = some cs)
    (identifier : Nat) (nm : String) (L : Nat) (scaling : Bool) :
    ((∃ p ∈ cs, p.2 = s) →
      ∃ n, d.choice_string_to_number s = .ok n ∧ (n, s) ∈ cs
        ∧ (Did.init identifier nm L [d]).encode
            [(d.name, EncValue.str s)] scaling
          = (Did.init identifier nm L [d]).encode
              [(d.name, EncValue.num (n : Rat))] scaling)
    ∧ ((∀ p ∈ cs, p.2 ≠ s) →
      d.choice_string_to_number s = .error .keyError
      ∧ (Did.init identifier nm L [d]).encode
          [(d.name, EncValue.str s)] scaling = .error .keyError) := by
  have hcd : (Did.init identifier nm L [d]).codec
      = some ([d.refreshCodec], L) := by
    simp [Did.init, Did.refresh]
  have hchr : d.refreshCodec.choices = some cs := by
    rw [Data.refreshCodec_choices, hch]
  constructor
  · rintro ⟨p, hp, hps⟩
    have hsome : (cs.find? (fun p => p.2 == s)).isSome :=
      List.find?_isSome.mpr ⟨p, hp, by simp [hps]⟩
    obtain ⟨p0, hf⟩ := Option.isSome_iff_exists.mp hsome
    have hp02 : p0.2 = s := by simpa using List.find?_some hf
    have hp0mem : (p0.1, p0.2) ∈ cs := by
      simpa using List.mem_of_find?_eq_some hf
    refine ⟨p0.1, ?_, ?_, ?_⟩
    · unfold Data.choice_string_to_number
      rw [hch]
      dsimp only
      rw [hf]
    · rwa [hp02] at hp0mem
    · have hnum : d.refreshCodec.choice_string_to_number s = .ok p0.1 := by
        unfold Data.choice_string_to_number
        rw [hchr]
        dsimp only
        rw [hf]
      have henc : encode_data [(d.name, EncValue.str s)] [d.refreshCodec]
            L scaling
          = encode_data [(d.name, EncValue.num (p0.1 : Rat))]
              [d.refreshCodec] L scaling := by
        unfold encode_data
        simp [List.lookup, Data.refreshCodec_name, resolveRaw, hnum,
          Except.map]
      rw [Did.encode, Did.encode, hcd]
      dsimp only
      rw [henc]
  · intro h
    have hfnone : cs.find? (fun p => p.2 == s) = none := by
      rw [List.find?_eq_none]
      intro p hp
      simp [h p hp]
    have hnum : d.choice_string_to_number s = .error .keyError := by
      unfold Data.choice_string_to_number
      rw [hch]
      dsimp only
      rw [hfnone]
    refine ⟨hnum, ?_⟩
    have hnum' : d.refreshCodec.choice_string_to_number s
        = .error .keyError := by
      unfold Data.choice_string_to_number
      rw [hchr]
      dsimp only
      rw [hfnone]
    have henc : encode_data [(d.name, EncValue.str s)] [d.refreshCodec]
        L scaling = .error .keyError := by
      unfold encode_data
      simp [List.lookup, Data.refreshCodec_name, resolveRaw, hnum',
        Except.map]
    rw [Did.encode, hcd]
    dsimp only
    rw [henc]

/-- A choice-carrying descriptor for the label-resolution witness. -/
def c7data : Data :=
  Data.init "Sw" 0 8 .little_endian 1 0 none none none none none
    (some [(0, "OFF"), (1, "ON")]) "uns" "dec" "atom" []

/-- Witness for C7 at a concrete input: the label table 0 ↦ OFF, 1 ↦ ON. -/
theorem claim_C7_witness :
    c7data.choices = some [(0, "OFF"), (1, "ON")]
    ∧ (((∃ p ∈ [(0, "OFF"), (1, "ON")], p.2 = "ON") →
        ∃ n, c7data.choice_string_to_number "ON" = .ok n
          ∧ (n, "ON") ∈ [(0, "OFF"), (1, "ON")]
          ∧ (Did.init 7 "C7" 1 [c7data]).encode
              [(c7data.name, EncValue.str "ON")] false
            = (Did.init 7 "C7" 1 [c7data]).encode
                [(c7data.name, EncValue.num (n : Rat))] false)
      ∧ ((∀ p ∈ [(0, "OFF"), (1, "ON")], p.2 ≠ "ON") →
        c7data.choice_string_to_number "ON" = .error .keyError
        ∧ (Did.init 7 "C7" 1 [c7data]).encode
            [(c7data.name, EncValue.str "ON")] false = .error .keyError)) :=
  ⟨rfl, claim_C7_choice_label_resolution c7data [(0, "OFF"), (1, "ON")] "ON"
      rfl 7 "C7" 1 false⟩

/-- The mapping `decode_data` produces when every field fits the buffer:
each leaf field decoded against the whole buffer, in descriptor order. -/
def decodeAllLeaves (datas : List Data) (buf : List Nat) (dc sc : Bool) :
    List (String × Value) :=
  datas.map (fun d => (d.name, decodeLeaf d buf dc sc))

theorem decode_data_of_fits (buf : List Nat) (expected fmtSize : Nat)
    (dc sc at' : Bool) :
    ∀ datas : List Data,
      (∀ d ∈ datas, d.start + d.length ≤ 8 * buf.length) →
      decode_data buf expected datas fmtSize dc sc at'
        = .ok (decodeAllLeaves datas buf dc sc) := by
  intro datas
  induction datas with
  | nil => intro h; rfl
  | cons d rest ih =>
    intro h
    rw [decode_data]
    rw [if_pos (h d (List.mem_cons_self d rest))]
    rw [ih (fun x hx => h x (List.mem_cons_of_mem d hx))]
    rfl

/-- The decoded items of the first `j` full slices of the repeating-group
loop, starting at the given byte offset: slice `t` covers `iterLen` bytes
beginning at `startByte + off + t * iterLen`. -/
def slicesDecoded (startByte iterLen : Nat) (subDatas : List Data)
    (data : List Nat) (dc sc : Bool) : Nat → Nat → List Value
  | 0, _ => []
  | j + 1, off =>
    Value.dict (decodeAllLeaves subDatas
        ((data.drop (startByte + off)).take iterLen) dc sc)
      :: slicesDecoded startByte iterLen subDatas data dc sc j (off + iterLen)

theorem structLoop_run (startByte iterLen minN : Nat) (subDatas : List Data)
    (subFmt : Nat) (data : List Nat) (dc sc at' : Bool)
    (hfit : ∀ sd ∈ subDatas, sd.start + sd.length ≤ 8 * iterLen)
    (hilen : 0 < iterLen) :
    ∀ j r i off acc, j < r →
      startByte + off + j * iterLen ≤ data.length →
      data.length < startByte + off + j * iterLen + iterLen →
      structLoop startByte iterLen minN subDatas subFmt data dc sc at'
          r i off acc
        = if i + j < minN ∧ at' = false then .error (.bufferError minN)
          else .ok (acc
              ++ slicesDecoded startByte iterLen subDatas data dc sc j off
              ++ [Value.null]) := by
  intro j
  induction j with
  | zero =>
    intro r i off acc hr hfull hshort
    obtain ⟨r', rfl⟩ := Nat.exists_eq_succ_of_ne_zero (by omega : r ≠ 0)
    rw [Nat.zero_mul] at hfull hshort
    rw [structLoop]
    have hsub : ((data.drop (startByte + off)).take iterLen).length
        < iterLen := by
      simp [List.length_take, List.length_drop]
      omega
    rw [if_pos hsub]
    simp only [Nat.add_zero, slicesDecoded, List.append_nil]
  | succ j ih =>
    intro r i off acc hr hfull hshort
    obtain ⟨r', rfl⟩ := Nat.exists_eq_succ_of_ne_zero (by omega : r ≠ 0)
    have hm : (j + 1) * iterLen = j * iterLen + iterLen := by ring
    rw [hm] at hfull hshort
    rw [structLoop]
    have hlen : ((data.drop (startByte + off)).take iterLen).length
        = iterLen := by
      simp [List.length_take, List.length_drop]
      omega
    have hsub : ¬ ((data.drop (startByte + off)).take iterLen).length
        < iterLen := by omega
    rw [if_neg hsub]
    have hfit' : ∀ sd ∈ subDatas, sd.start + sd.length
        ≤ 8 * ((data.drop (startByte + off)).take iterLen).length := by
      rw [hlen]; exact hfit
    rw [decode_data_of_fits _ _ _ _ _ _ _ hfit']
    dsimp only
    rw [hlen]
    rw [ih r' (i + 1) (off + iterLen) _ (by omega) (by omega) (by omega)]
    rcases Decidable.em (i + (j + 1) < minN ∧ at' = false) with hc | hc
    · rw [if_pos (show i + 1 + j < minN ∧ at' = false from ⟨by omega, hc.2⟩),
        if_pos hc]
    · rw [if_neg (show ¬ (i + 1 + j < minN ∧ at' = false) from
          fun hx => hc ⟨by omega, hx.2⟩), if_neg hc]
      rw [slicesDecoded]
      simp

/-- Claim C3: when the repeating-group decode of a structured field meets a
slice shorter than the item size at item index `j` (the buffer supports
exactly `j` full items): with `j` below `min_num_of_items` and truncation
disallowed it fails with the `BufferError` naming the expected minimum item
count, and otherwise it appends the `None` sentinel for that item after the
`j` decoded items and stops iterating. -/
theorem claim_C3_truncation_policy (d : Data) (subDatas : List Data)
    (subFmt : Nat) (data : List Nat) (dc sc at' : Bool)
    (minB minN maxN j : Nat)
    (hmin : d.minimum = some minB) (hminN : d.min_num_of_items = some minN)
    (hmaxN : d.max_num_of_items = some maxN) (hminN0 : minN ≠ 0)
    (hfit : ∀ sd ∈ subDatas, sd.start + sd.length ≤ 8 * (minB / minN))
    (hilen : 0 < minB / minN)
    (hj : j < maxN)
    (hfull : d.start / 8 + j * (minB / minN) ≤ data.length)
    (hshort : data.length < d.start / 8 + j * (minB / minN) + minB / minN) :
    (j < minN ∧ at' = false →
      structItems d subDatas subFmt data dc sc at'
        = .error (.bufferError minN))
    ∧ (minN ≤ j ∨ at' = true →
      structItems d subDatas subFmt data dc sc at'
        = .ok (slicesDecoded (d.start / 8) (minB / minN) subDatas data dc sc
              j 0
            ++ [Value.null])) := by
  have hrun := structLoop_run (d.start / 8) (minB / minN) minN subDatas
    subFmt data dc sc at' hfit hilen j maxN 0 0 [] hj
    (by omega) (by omega)
  rw [Nat.zero_add] at hrun
  have hitems : structItems d subDatas subFmt data dc sc at'
      = structLoop (d.start / 8) (minB / minN) minN subDatas subFmt data
          dc sc at' maxN 0 0 [] := by
    unfold structItems
    rw [hmin, hminN, hmaxN]
    dsimp only
    rw [if_neg hminN0]
  constructor
  · intro hc
    rw [hitems, hrun, if_pos hc]
  · intro hc
    rw [hitems, hrun,
      if_neg (show ¬ (j < minN ∧ at' = false) by
        rcases hc with hc | hc
        · intro hx; omega
        · intro hx; rw [hc] at hx; cases hx.2)]
    simp

/-- The repeating descriptor of the spec's truncation-policy scenario:
`min_items = 2`, `max_items = 5`, one-byte items. -/
def c3leaf : Data :=
  Data.init "x" 0 8 .little_endian 1 0 none none none none none none
    "uns" "dec" "atom" []

def c3struct : Data :=
  Data.init "R" 0 16 .little_endian 1 0 (some 2) (some 5) (some 2) (some 5)
    none none "" "" "field" [c3leaf]

/-- Witness for C3: with one full item available and truncation disallowed
the loop fails with `BufferError(2)`; with three full items available the
minimum is satisfied and the result is the three items followed by the
`None` sentinel. -/
theorem claim_C3_witness :
    ((1 < 2 ∧ false = false)
      ∧ structItems c3struct [c3leaf] 1 [9] false false false
          = .error (.bufferError 2))
    ∧ ((2 ≤ 3)
      ∧ structItems c3struct [c3leaf] 1 [9, 8, 7] false false false
          = .ok [Value.dict [("x", Value.num 9)],
                 Value.dict [("x", Value.num 8)],
                 Value.dict [("x", Value.num 7)],
                 Value.null]) :=
  ⟨⟨⟨by decide, rfl⟩,
    (claim_C3_truncation_policy c3struct [c3leaf] 1 [9] false false false
        2 2 5 1 rfl rfl rfl (by decide) (by decide) (by decide) (by decide)
        (by decide) (by decide)).1 ⟨by decide, rfl⟩⟩,
   ⟨by decide,
    (claim_C3_truncation_policy c3struct [c3leaf] 1 [9, 8, 7] false false
        false 2 2 5 3 rfl rfl rfl (by decide) (by decide) (by decide)
        (by decide) (by decide) (by decide)).2 (Or.inl (by decide))⟩⟩

theorem structLoop_length (startByte iterLen minN : Nat)
    (subDatas : List Data) (subFmt : Nat) (data : List Nat)
    (dc sc at' : Bool) :
    ∀ r i off acc l,
      structLoop startByte iterLen minN subDatas subFmt data dc sc at'
          r i off acc = .ok l →
      l.length ≤ acc.length + r := by
  intro r
  induction r with
  | zero =>
    intro i off acc l h
    rw [structLoop] at h
    cases h
    omega
  | succ r ih =>
    intro i off acc l h
    rw [structLoop] at h
    split at h
    · split at h
      · cases h
      · cases h
        simp
    · split at h
      · cases h
      · have := ih _ _ _ _ h
        simp at this
        omega

theorem structLoop_shape (startByte iterLen minN : Nat)
    (subDatas : List Data) (subFmt : Nat) (data : List Nat)
    (dc sc at' : Bool) :
    ∀ r i off acc l,
      structLoop startByte iterLen minN subDatas subFmt data dc sc at'
          r i off acc = .ok l →
      (∀ v ∈ acc, (∃ m, v = Value.dict m) ∨ v = Value.null) →
      ∀ v ∈ l, (∃ m, v = Value.dict m) ∨ v = Value.null := by
  intro r
  induction r with
  | zero =>
    intro i off acc l h hacc
    rw [structLoop] at h
    cases h
    exact hacc
  | succ r ih =>
    intro i off acc l h hacc
    rw [structLoop] at h
    split at h
    · split at h
      · cases h
      · cases h
        intro v hv
        rcases List.mem_append.mp hv with hv | hv
        · exact hacc v hv
        · right
          simpa using hv
    · split at h
      · cases h
      · refine ih _ _ _ _ h ?_
        intro v hv
        rcases List.mem_append.mp hv with hv | hv
        · exact hacc v hv
        · left
          exact ⟨_, by simpa using hv⟩

theorem structItems_ok_elim (d : Data) (subDatas : List Data) (subFmt : Nat)
    (data : List Nat) (dc sc at' : Bool) (items : List Value)
    (h : structItems d subDatas subFmt data dc sc at' = .ok items) :
    ∃ minB minN maxN, d.minimum = some minB
      ∧ d.min_num_of_items = some minN
      ∧ d.max_num_of_items = some maxN
      ∧ minN ≠ 0
      ∧ structLoop (d.start / 8) (minB / minN) minN subDatas subFmt data
          dc sc at' maxN 0 0 [] = .ok items := by
  unfold structItems at h
  split at h
  · rename_i minB minN maxN hm hmn hmx
    split at h
    · cases h
    · rename_i hne
      exact ⟨minB, minN, maxN, hm, hmn, hmx, hne, h⟩
  · cases h

theorem structItems_length_le (d : Data) (subDatas : List Data)
    (subFmt : Nat) (data : List Nat) (dc sc at' : Bool)
    (items : List Value) (maxN : Nat)
    (h : structItems d subDatas subFmt data dc sc at' = .ok items)
    (hmax : d.max_num_of_items = some maxN) :
    items.length ≤ maxN := by
  obtain ⟨minB, minN, maxN', _, _, hmx, _, hloop⟩ :=
    structItems_ok_elim d subDatas subFmt data dc sc at' items h
  rw [hmax] at hmx
  have hEq : maxN' = maxN := (Option.some_inj.mp hmx).symm
  subst hEq
  have := structLoop_length _ _ _ _ _ _ _ _ _ _ _ _ _ _ hloop
  simpa using this

theorem structItems_shape (d : Data) (subDatas : List Data) (subFmt : Nat)
    (data : List Nat) (dc sc at' : Bool) (items : List Value)
    (h : structItems d subDatas subFmt data dc sc at' = .ok items) :
    ∀ v ∈ items, (∃ m, v = Value.dict m) ∨ v = Value.null := by
  obtain ⟨minB, minN, maxN, _, _, _, _, hloop⟩ :=
    structItems_ok_elim d subDatas subFmt data dc sc at' items h
  exact structLoop_shape _ _ _ _ _ _ _ _ _ _ _ _ _ _ hloop (by simp)

theorem lookup_of_not_any (k : String) :
    ∀ m : List (String × Value),
      (m.any (fun p => p.1 == k)) = false → m.lookup k = none := by
  intro m
  induction m with
  | nil => intro h; rfl
  | cons p rest ih =>
    intro h
    obtain ⟨a, b⟩ := p
    rw [List.any_cons] at h
    simp only [Bool.or_eq_false_iff] at h
    rw [List.lookup_cons]
    have hk : (k == a) = false := by
      refine beq_eq_false_iff_ne.mpr ?_
      intro hEq
      subst hEq
      simp at h
    rw [hk]
    exact ih h.2

theorem lookup_append_or (nm : String) :
    ∀ m1 m2 : List (String × Value),
      (m1 ++ m2).lookup nm = (m1.lookup nm).or (m2.lookup nm) := by
  intro m1 m2
  induction m1 with
  | nil => simp
  | cons p rest ih =>
    obtain ⟨a, b⟩ := p
    rw [List.cons_append, List.lookup_cons, List.lookup_cons]
    cases nm == a
    · simpa using ih
    · rfl

theorem lookup_map_overwrite (k : String) (v : Value) :
    ∀ m : List (String × Value),
      (m.map (fun p => if p.1 == k then (k, v) else p)).lookup k
        = if m.any (fun p => p.1 == k) then some v else none := by
  intro m
  induction m with
  | nil => rfl
  | cons p rest ih =>
    obtain ⟨a, b⟩ := p
    by_cases hak : a = k
    · subst hak
      simp [List.lookup_cons]
    · have h1 : ((a, b).1 == k) = false := beq_eq_false_iff_ne.mpr hak
      have h2 : (k == a) = false :=
        beq_eq_false_iff_ne.mpr (fun hEq => hak hEq.symm)
      simp only [List.map_cons, List.any_cons, h1]
      rw [if_neg (by simp)]
      rw [List.lookup_cons, h2]
      simpa using ih

theorem lookup_map_overwrite_ne (k nm : String) (v : Value) (h : k ≠ nm) :
    ∀ m : List (String × Value),
      (m.map (fun p => if p.1 == k then (k, v) else p)).lookup nm
        = m.lookup nm := by
  intro m
  induction m with
  | nil => rfl
  | cons p rest ih =>
    obtain ⟨a, b⟩ := p
    by_cases hak : a = k
    · subst hak
      have hnk : (nm == a) = false :=
        beq_eq_false_iff_ne.mpr (fun hEq => h hEq.symm)
      simp only [List.map_cons]
      rw [show ((a, b).1 == a) = true from by simp]
      simp only [if_true]
      rw [List.lookup_cons, List.lookup_cons, hnk]
      exact ih
    · have h1 : ((a, b).1 == k) = false := beq_eq_false_iff_ne.mpr hak
      simp only [List.map_cons, h1]
      rw [if_neg (by simp)]
      rw [List.lookup_cons, List.lookup_cons]
      cases nm == a
      · exact ih
      · rfl

theorem lookup_setKey_self (m : List (String × Value)) (k : String)
    (v : Value) : (setKey m k v).lookup k = some v := by
  unfold setKey
  split
  · rename_i hany
    rw [lookup_map_overwrite, if_pos hany]
  · rename_i hany
    have hany' : (m.any (fun p => p.1 == k)) = false := by
      cases hb : m.any (fun p => p.1 == k)
      · rfl
      · exact absurd hb hany
    rw [lookup_append_or, lookup_of_not_any k m hany']
    rw [List.lookup_cons]
    rw [show (k == k) = true from by simp]
    rfl

theorem lookup_setKey_ne (m : List (String × Value)) (k nm : String)
    (v : Value) (h : k ≠ nm) :
    (setKey m k v).lookup nm = m.lookup nm := by
  unfold setKey
  split
  · exact lookup_map_overwrite_ne k nm v h m
  · rw [lookup_append_or]
    have hnk : (nm == k) = false :=
      beq_eq_false_iff_ne.mpr (fun hEq => h hEq.symm)
    rw [List.lookup_cons, hnk]
    simp

theorem structPass_lookup_preserve (dataBuf : List Nat) (dc sc at' : Bool)
    (nm : String) :
    ∀ (datas : List Data) (acc res : List (String × Value)),
      (∀ x ∈ datas, x.name ≠ nm) →
      structPass dataBuf dc sc at' datas acc = .ok res →
      res.lookup nm = acc.lookup nm := by
  intro datas
  induction datas with
  | nil =>
    intro acc res hn hp
    rw [structPass] at hp
    cases hp
    rfl
  | cons x rest ih =>
    intro acc res hn hp
    have hxn : x.name ≠ nm := hn x (List.mem_cons_self x rest)
    have hrest : ∀ y ∈ rest, y.name ≠ nm :=
      fun y hy => hn y (List.mem_cons_of_mem x hy)
    rw [structPass] at hp
    split at hp
    · exact ih acc res hrest hp
    · split at hp
      · cases hp
      · split at hp
        · split at hp
          · cases hp
          · rw [ih _ res hrest hp]
            exact lookup_setKey_ne acc x.name nm _ hxn
        · rw [ih _ res hrest hp]
          exact lookup_setKey_ne acc x.name nm _ hxn

theorem structPass_spec (dataBuf : List Nat) (dc sc at' : Bool) :
    ∀ (datas : List Data) (acc res : List (String × Value)),
      structPass dataBuf dc sc at' datas acc = .ok res →
      (datas.map Data.name).Nodup →
      ∀ d ∈ datas, ∀ subDatas subFmt,
        d.codec = some (subDatas, subFmt) →
        ∃ items, structItems d subDatas subFmt dataBuf dc sc at' = .ok items
          ∧ ((d.min_num_of_items = d.max_num_of_items
              ∧ d.max_num_of_items = some 1) →
              ∃ v rest', items = v :: rest' ∧ res.lookup d.name = some v)
          ∧ (¬ (d.min_num_of_items = d.max_num_of_items
              ∧ d.max_num_of_items = some 1) →
              res.lookup d.name = some (Value.seq items)) := by
  intro datas
  induction datas with
  | nil =>
    intro acc res hp hnd d hd
    simp at hd
  | cons x rest ih =>
    intro acc res hp hnd d hd subDatas subFmt hcodec
    rw [List.map_cons, List.nodup_cons] at hnd
    obtain ⟨hxnot, hndrest⟩ := hnd
    have hrest_ne : ∀ y ∈ rest, y.name ≠ x.name := by
      intro y hy hEq
      exact hxnot (List.mem_map.mpr ⟨y, hy, hEq⟩)
    rw [structPass] at hp
    rcases List.mem_cons.mp hd with rfl | hdrest
    · -- the descriptor under scrutiny is the head of the list
      rw [hcodec] at hp
      dsimp only at hp
      cases hitems : structItems d subDatas subFmt dataBuf dc sc at' with
      | error e => rw [hitems] at hp; cases hp
      | ok items =>
        rw [hitems] at hp
        dsimp only at hp
        refine ⟨items, rfl, ?_, ?_⟩
        · intro hc1
          rw [if_pos hc1] at hp
          cases items with
          | nil => cases hp
          | cons v rest' =>
            refine ⟨v, rest', rfl, ?_⟩
            rw [structPass_lookup_preserve dataBuf dc sc at' d.name rest _
                res hrest_ne hp]
            exact lookup_setKey_self acc d.name v
        · intro hc1
          rw [if_neg hc1] at hp
          rw [structPass_lookup_preserve dataBuf dc sc at' d.name rest _
              res hrest_ne hp]
          exact lookup_setKey_self acc d.name (Value.seq items)
    · -- the descriptor under scrutiny is in the tail
      split at hp
      · exact ih acc res hp hndrest d hdrest subDatas subFmt hcodec
      · split at hp
        · cases hp
        · split at hp
          · split at hp
            · cases hp
            · exact ih _ res hp hndrest d hdrest subDatas subFmt hcodec
          · exact ih _ res hp hndrest d hdrest subDatas subFmt hcodec

/-- Claim C4: for every structured/repeating field a successful decode
binds the field name to the bare single item when `min_num_of_items ==
max_num_of_items == 1` (never a one-element sequence — items are decoded
sub-mappings or the `None` sentinel) and to the ordered item sequence of
length at most `max_num_of_items` otherwise.  (Descriptor names must be
unique, as the data model requires.) -/
theorem claim_C4_decoded_shape (did : Did) (dataBuf : List Nat)
    (dc sc at' : Bool) (res : List (String × Value))
    (hdec : did.decode dataBuf dc sc at' = .ok res)
    (hnodup : (did.datas.map Data.name).Nodup)
    (d : Data) (hd : d ∈ did.datas) (subDatas : List Data) (subFmt : Nat)
    (hcodec : d.codec = some (subDatas, subFmt)) (maxN : Nat)
    (hmaxN : d.max_num_of_items = some maxN) :
    ∃ items, structItems d subDatas subFmt dataBuf dc sc at' = .ok items
      ∧ items.length ≤ maxN
      ∧ (∀ v ∈ items, (∃ m, v = Value.dict m) ∨ v = Value.null)
      ∧ ((d.min_num_of_items = some 1 ∧ maxN = 1) →
          ∃ v, items = [v] ∧ res.lookup d.name = some v
            ∧ ∀ l, v ≠ Value.seq l)
      ∧ (¬ (d.min_num_of_items = some 1 ∧ maxN = 1) →
          res.lookup d.name = some (Value.seq items)) := by
  rw [Did.decode] at hdec
  cases hc : did.codec with
  | none => rw [hc] at hdec; cases hdec
  | some c =>
    obtain ⟨cdatas, cfmt⟩ := c
    rw [hc] at hdec
    dsimp only at hdec
    cases hdd : decode_data dataBuf did.length cdatas cfmt dc sc at' with
    | error e => rw [hdd] at hdec; cases hdec
    | ok decoded =>
      rw [hdd] at hdec
      dsimp only at hdec
      obtain ⟨items, hitems, h1, h2⟩ :=
        structPass_spec dataBuf dc sc at' did.datas decoded res hdec hnodup
          d hd subDatas subFmt hcodec
      have hlen := structItems_length_le d subDatas subFmt dataBuf dc sc at'
        items maxN hitems hmaxN
      have hshape := structItems_shape d subDatas subFmt dataBuf dc sc at'
        items hitems
      have hcondiff : (d.min_num_of_items = d.max_num_of_items
            ∧ d.max_num_of_items = some 1)
          ↔ (d.min_num_of_items = some 1 ∧ maxN = 1) := by
        rw [hmaxN]
        constructor
        · rintro ⟨ha, hb⟩
          exact ⟨by rw [ha, hb], Option.some_inj.mp hb⟩
        · rintro ⟨ha, hb⟩
          subst hb
          exact ⟨by rw [ha], rfl⟩
      refine ⟨items, hitems, hlen, hshape, ?_, ?_⟩
      · intro hc1
        obtain ⟨v, rest', hcons, hlook⟩ := h1 (hcondiff.mpr hc1)
        have hvmem : v ∈ items := by
          rw [hcons]
          exact List.mem_cons_self v rest'
        refine ⟨v, ?_, hlook, ?_⟩
        · rw [hcons]
          have hrest' : rest' = [] := by
            rw [hcons, hc1.2] at hlen
            simp only [List.length_cons] at hlen
            exact List.length_eq_zero.mp (by omega)
          rw [hrest']
        · intro l hvl
          rcases hshape v hvmem with ⟨m, hm⟩ | hm
          · rw [hvl] at hm
            cases hm
          · rw [hvl] at hm
            cases hm
      · intro hc1
        exact h2 (fun hx => hc1 (hcondiff.mp hx))

/-- Witness for C4 at a concrete input: the two-byte record with one
structured field (`min_items = max_items = 1`) decodes the field to the
bare sub-mapping, never a one-element sequence. -/
theorem claim_C4_witness :
    c1did.decode [7, 8] false false false
      = .ok [("S", Value.dict [("Inner", Value.num 7)])]
    ∧ ∃ items, structItems c1struct.refreshCodec [c1leaf] 2 [7, 8]
          false false false = .ok items
      ∧ items.length ≤ 1
      ∧ (∀ v ∈ items, (∃ m, v = Value.dict m) ∨ v = Value.null)
      ∧ ((c1struct.refreshCodec.min_num_of_items = some 1 ∧ 1 = 1) →
          ∃ v, items = [v]
            ∧ ([("S", Value.dict [("Inner", Value.num 7)])]).lookup
                c1struct.refreshCodec.name = some v
            ∧ ∀ l, v ≠ Value.seq l)
      ∧ (¬ (c1struct.refreshCodec.min_num_of_items = some 1 ∧ 1 = 1) →
          ([("S", Value.dict [("Inner", Value.num 7)])]).lookup
              c1struct.refreshCodec.name = some (Value.seq items)) :=
  ⟨rfl,
   claim_C4_decoded_shape c1did [7, 8] false false false
     [("S", Value.dict [("Inner", Value.num 7)])] rfl (by decide)
     c1struct.refreshCodec (List.Mem.head _) [c1leaf] 2 rfl 1 rfl⟩
